import Mathlib

/-!
Shallow embedding of `src/src/PredictedProcess.ts`.

The class `PredictedProcess` wraps execution of a shell command.  Its state
is `_childProcess` (the active execution slot, only its non-nullness is ever
tested), `_memoize`, a FIFO `queue` of `{resolve, reject, signal}` items, and
`successfulList` (tokens whose memoized execution already succeeded).

Two machines are embedded below:

* `Sys` with `step` — the instance-level machine: the synchronous bodies of
  `run` and `runNext`, the settlement handlers of a queue-drained execution
  (`.then` / `.catch` / `.finally(this.runNext)`), and the settlement of a
  directly launched execution.  Ghost fields record observable history:
  `spawns` (every spawn in order), `settled` (every promise settlement in
  order), `running` (the set of executions actually in flight), and `seq`
  arrival indices on queue items.  Cancellation tokens (`AbortSignal`s) are
  modelled by their object identity (a `Nat`); which tokens have fired is
  the `abortedTokens` list, grown by the external `abortSig` event.

* `ExecSt` with `execStep` — the per-call machine of `exec`: the `abort`,
  `error` and `close` listeners, each of which runs `cleanup` (remove all
  listeners, kill, null the slot, deregister the abort listener) and then
  settles the promise.  An event only has an effect while its listener is
  still attached, which is how the source makes cleanup idempotent.
-/

namespace PredictedProc

/-- Cancellation tokens (`AbortSignal` objects) are modelled by their object
identity.  Whether a token has fired is tracked separately in `Sys`. -/
abbrev Token := Nat

/-- The error kinds surfaced by `run` / `exec` in the source:
`'Signal already aborted'`, `'Process aborted by signal.'`,
`'Process exited with error'`, and `'Process exited with code …'`. -/
inductive ErrKind where
  | alreadyAborted
  | abortedBySignal
  | spawnError
  | nonZeroExit (code : Int)
deriving DecidableEq, Repr

/-- Settlement outcome of one caller's promise. -/
inductive Outcome where
  | ok
  | err (k : ErrKind)
deriving DecidableEq, Repr

/-- A queue entry, `{ resolve, reject, signal }` in the source.  The
resolve/reject pair of one particular `run` call is modelled by that call's
`caller` id; `seq` is ghost data, the arrival index of the entry. -/
structure QueueItem where
  caller : Nat
  signal : Token
  seq : Nat
deriving DecidableEq, Repr

/-- Identifies one spawned execution by the way it was launched: from the
queue drain (`runNext`, carrying its queue item), or directly from `run`
(no signal supplied, or memoization off). -/
inductive ExecKind where
  | drained (item : QueueItem)
  | direct (caller : Nat) (signal : Option Token)
deriving DecidableEq, Repr

/-- Instance state plus ghost observation history. -/
structure Sys where
  _memoize : Bool
  _childProcess : Bool
  queue : List QueueItem
  successfulList : List Token
  abortedTokens : List Token
  nextSeq : Nat
  spawns : List ExecKind
  settled : List (Nat × Outcome)
  running : List ExecKind
deriving DecidableEq, Repr

/-- The freshly constructed instance. -/
def Sys.init : Sys :=
  { _memoize := false, _childProcess := false, queue := [], successfulList := []
    abortedTokens := [], nextSeq := 0, spawns := [], settled := [], running := [] }

/-- `runNext`: exit if `_childProcess` is set; otherwise `shift` the oldest
queue item and, if one exists and memoization is enabled, `exec` it (spawn:
the slot is set and the execution starts). -/
def runNext (s : Sys) : Sys :=
  if s._childProcess then s
  else
    match s.queue with
    | [] => s
    | item :: rest =>
      if s._memoize then
        { s with
          queue := rest
          _childProcess := true
          spawns := s.spawns ++ [ExecKind.drained item]
          running := s.running ++ [ExecKind.drained item] }
      else
        { s with queue := rest }

/-- The synchronous body of `run(signal?)`: reject if the signal is already
aborted; resolve if memoized and the signal is in `successfulList`
(membership by token identity); if memoized with a signal, push a queue item
and call `runNext`; otherwise `exec` directly (spawn at once, no queueing). -/
def run (s : Sys) (caller : Nat) (signal : Option Token) : Sys :=
  match signal with
  | some t =>
    if t ∈ s.abortedTokens then
      { s with settled := s.settled ++ [(caller, Outcome.err ErrKind.alreadyAborted)] }
    else if s._memoize = true ∧ t ∈ s.successfulList then
      { s with settled := s.settled ++ [(caller, Outcome.ok)] }
    else if s._memoize = true then
      runNext { s with
        queue := s.queue ++ [{ caller := caller, signal := t, seq := s.nextSeq }]
        nextSeq := s.nextSeq + 1 }
    else
      { s with
        _childProcess := true
        spawns := s.spawns ++ [ExecKind.direct caller (some t)]
        running := s.running ++ [ExecKind.direct caller (some t)] }
  | none =>
    { s with
      _childProcess := true
      spawns := s.spawns ++ [ExecKind.direct caller none]
      running := s.running ++ [ExecKind.direct caller none] }

/-- Effect, on the instance, of the `cleanup` run by the settling execution:
`this._childProcess = null` (and the process itself stops running). -/
def execCleanup (s : Sys) (k : ExecKind) : Sys :=
  { s with _childProcess := false, running := s.running.erase k }

/-- The `.then` handler of a queue-drained execution: push the signal onto
`successfulList`, resolve the executed item, then filter the queue, resolving
and removing every entry whose signal is identical to the executed one. -/
def drainThen (s : Sys) (item : QueueItem) : Sys :=
  { s with
    successfulList := s.successfulList ++ [item.signal]
    settled := s.settled ++ (item.caller, Outcome.ok)
      :: (s.queue.filter (fun e => e.signal == item.signal)).map
          (fun e => (e.caller, Outcome.ok))
    queue := s.queue.filter (fun e => !(e.signal == item.signal)) }

/-- The `.catch` handler of a queue-drained execution: reject only the
executed item. -/
def drainCatch (s : Sys) (item : QueueItem) (k : ErrKind) : Sys :=
  { s with settled := s.settled ++ [(item.caller, Outcome.err k)] }

/-- Settlement of a queue-drained execution: `exec`'s terminal event runs
`cleanup` and settles the `exec` promise; then `.then`/`.catch` fires, and
`.finally(this.runNext)` re-invokes the drain. -/
def settleDrained (s : Sys) (item : QueueItem) (oc : Outcome) : Sys :=
  runNext (match oc with
    | Outcome.ok => drainThen (execCleanup s (ExecKind.drained item)) item
    | Outcome.err k => drainCatch (execCleanup s (ExecKind.drained item)) item k)

/-- Settlement of a directly launched execution: `cleanup` and settle the
caller's promise.  Nothing re-invokes `runNext` on this path. -/
def settleDirect (s : Sys) (caller : Nat) (signal : Option Token) (oc : Outcome) : Sys :=
  { execCleanup s (ExecKind.direct caller signal) with
    settled := s.settled ++ [(caller, oc)] }

/-- External events driving one instance: a `run` call, the settlement of an
in-flight execution, a token firing, and `memoize()`. -/
inductive Label where
  | runCall (caller : Nat) (signal : Option Token)
  | settleExec (k : ExecKind) (oc : Outcome)
  | abortSig (t : Token)
  | memoizeCall
deriving DecidableEq, Repr

/-- One step of the instance-level machine.  `settleExec` is a no-op unless
the named execution is actually in flight. -/
def step (s : Sys) (l : Label) : Sys :=
  match l with
  | Label.runCall c sig => run s c sig
  | Label.settleExec k oc =>
    if k ∈ s.running then
      match k with
      | ExecKind.drained item => settleDrained s item oc
      | ExecKind.direct c sig => settleDirect s c sig oc
    else s
  | Label.abortSig t => { s with abortedTokens := s.abortedTokens ++ [t] }
  | Label.memoizeCall => { s with _memoize := true }

/-- Run a list of events from a state. -/
def stepsFrom (s : Sys) (ls : List Label) : Sys := ls.foldl step s

/-- A fresh instance on which `memoize()` has been called. -/
def memoInit : Sys := step Sys.init Label.memoizeCall

/-! ## The per-call machine of `exec` -/

/-- Terminal events that can reach one `exec` call: the abort event on its
signal, the child's `error` event, and the child's `close` event with an
exit code. -/
inductive EEvent where
  | abortFires
  | errorEv
  | closeEv (code : Int)
deriving DecidableEq, Repr

/-- The observable state of one `exec` call: which listeners are still
attached, whether this call's handle still sits in `this._childProcess`,
whether `kill()` has been issued, the settlement of the returned promise
(`none` while pending), and how many times `cleanup` has run. -/
structure ExecSt where
  listenersAttached : Bool
  abortListenerOn : Bool
  childInSlot : Bool
  killed : Bool
  result : Option Outcome
  cleanupRuns : Nat
deriving DecidableEq, Repr

/-- State right after the synchronous part of `exec`: spawned, slot set,
`error`/`close` listeners on, abort listener registered iff a signal was
passed. -/
def execInit (hasSignal : Bool) : ExecSt :=
  { listenersAttached := true, abortListenerOn := hasSignal, childInSlot := true
  , killed := false, result := none, cleanupRuns := 0 }

/-- `cleanup`: remove all listeners from the child, `kill()` it, null out
`this._childProcess`, and deregister the abort listener. -/
def cleanup (st : ExecSt) : ExecSt :=
  { st with
    listenersAttached := false
    abortListenerOn := false
    childInSlot := false
    killed := true
    cleanupRuns := st.cleanupRuns + 1 }

/-- Dispatch of one event to the listeners of an `exec` call.  A listener
only runs while it is still attached — a previous `cleanup` removed every
listener, so the losing event of a race is a no-op. -/
def execStep (st : ExecSt) (e : EEvent) : ExecSt :=
  match e with
  | EEvent.abortFires =>
    if st.abortListenerOn then
      { cleanup st with result := some (Outcome.err ErrKind.abortedBySignal) }
    else st
  | EEvent.errorEv =>
    if st.listenersAttached then
      { cleanup st with result := some (Outcome.err ErrKind.spawnError) }
    else st
  | EEvent.closeEv code =>
    if st.listenersAttached then
      { cleanup st with
        result := some (if code = 0 then Outcome.ok
                        else Outcome.err (ErrKind.nonZeroExit code)) }
    else st

/-- Deliver a list of events to one `exec` call. -/
def execEvents (st : ExecSt) (es : List EEvent) : ExecSt := es.foldl execStep st

/-! ## The object-level view of `memoize()` (claim C9) -/

/-- The fields a `PredictedProcess` object carries at construction time,
together with `objId`, which models the JS object reference so that aliasing
is expressible. -/
structure Instance where
  objId : Nat
  id : Nat
  command : String
  _memoize : Bool
deriving DecidableEq, Repr

/-- `new PredictedProcess(id, command)`: `_memoize` starts false. -/
def Instance.new (objId id : Nat) (command : String) : Instance :=
  { objId := objId, id := id, command := command, _memoize := false }

/-- `memoize()`: sets `this._memoize = true` and returns `this` — the same
object reference, hence the same `objId`. -/
def Instance.memoize (p : Instance) : Instance :=
  { p with _memoize := true }

/-! ## Invariants -/

/-- Ghost arrival index carried by a spawn record. -/
def seqOf : ExecKind → Nat
  | ExecKind.drained item => item.seq
  | ExecKind.direct _ _ => 0

/-- All arrival indices in execution order followed by queue order: every
spawn so far (oldest first), then every still-queued entry (oldest first). -/
def seqList (s : Sys) : List Nat :=
  s.spawns.map seqOf ++ s.queue.map QueueItem.seq

/-- True of a spawned execution that was launched by the queue drain. -/
def ExecKind.isDrained : ExecKind → Bool
  | ExecKind.drained _ => true
  | ExecKind.direct _ _ => false

/-- Labels that keep the instance on the memoized+token path: every `run`
call carries a token (token-less calls launch a direct execution). -/
def queueOnly : Label → Bool
  | Label.runCall _ none => false
  | _ => true

/-- Inductive invariant of the memoized+token path: memoization stays on,
at most one execution is in flight and it came from the drain, the slot is
set exactly while something runs, and arrival indices are strictly
increasing along spawns-then-queue (the FIFO discipline). -/
def Inv (s : Sys) : Prop :=
  s._memoize = true ∧
  (∀ k ∈ s.running, k.isDrained = true) ∧
  s.running.length ≤ 1 ∧
  (s._childProcess = true ↔ s.running ≠ []) ∧
  (seqList s).Pairwise (· < ·) ∧
  (∀ x ∈ seqList s, x < s.nextSeq)

/-- Invariant of one `exec` call: either still pending (no cleanup yet, all
listeners attached, handle in the slot) or settled (cleanup ran exactly
once, no listeners left, slot empty). -/
def ExecInv (st : ExecSt) : Prop :=
  (st.result = none ∧ st.cleanupRuns = 0 ∧ st.listenersAttached = true ∧
    st.childInSlot = true)
  ∨ (st.result ≠ none ∧ st.cleanupRuns = 1 ∧ st.listenersAttached = false ∧
    st.abortListenerOn = false ∧ st.childInSlot = false)

/-! ## Lemmas about the `exec` machine -/

theorem execInv_init (b : Bool) : ExecInv (execInit b) := by
  left
  simp [execInit]

theorem execInv_step (st : ExecSt) (e : EEvent) (h : ExecInv st) :
    ExecInv (execStep st e) := by
  rcases h with ⟨h1, h2, h3, h4⟩ | ⟨h1, h2, h3, h4, h5⟩
  · cases e with
    | abortFires =>
      by_cases ha : st.abortListenerOn = true
      · right
        simp [execStep, ha, cleanup, h2]
      · left
        simp [execStep, ha, h1, h2, h3, h4]
    | errorEv =>
      right
      simp [execStep, h3, cleanup, h2]
    | closeEv code =>
      right
      simp [execStep, h3, cleanup, h2]
  · cases e with
    | abortFires =>
      right
      simp [execStep, h4, h1, h2, h3, h5]
    | errorEv =>
      right
      simp [execStep, h3, h1, h2, h4, h5]
    | closeEv code =>
      right
      simp [execStep, h3, h1, h2, h4, h5]

theorem execStep_of_settled (st : ExecSt) (e : EEvent) (h : ExecInv st)
    (hres : st.result ≠ none) : execStep st e = st := by
  rcases h with ⟨h1, _, _, _⟩ | ⟨_, _, h3, h4, _⟩
  · exact absurd h1 hres
  · cases e <;> simp [execStep, h3, h4]

theorem execInv_events (es : List EEvent) (st : ExecSt) (h : ExecInv st) :
    ExecInv (execEvents st es) := by
  induction es generalizing st with
  | nil => exact h
  | cons e es ih => exact ih (execStep st e) (execInv_step st e h)

theorem execStep_no_abort (st : ExecSt) (e : EEvent) (he : e ≠ EEvent.abortFires)
    (h : st.result ≠ some (Outcome.err ErrKind.abortedBySignal)) :
    (execStep st e).result ≠ some (Outcome.err ErrKind.abortedBySignal) := by
  cases e with
  | abortFires => exact absurd rfl he
  | errorEv =>
    by_cases hl : st.listenersAttached = true <;> simp [execStep, hl, h]
  | closeEv code =>
    by_cases hl : st.listenersAttached = true <;>
      by_cases hc : code = 0 <;> simp [execStep, hl, hc, h]

theorem execEvents_no_abort (es : List EEvent) (st : ExecSt)
    (hes : EEvent.abortFires ∉ es)
    (h : st.result ≠ some (Outcome.err ErrKind.abortedBySignal)) :
    (execEvents st es).result ≠ some (Outcome.err ErrKind.abortedBySignal) := by
  induction es generalizing st with
  | nil => exact h
  | cons e es ih =>
    have he : e ≠ EEvent.abortFires := fun hh => hes (hh ▸ List.mem_cons_self e es)
    have hes2 : EEvent.abortFires ∉ es := fun hh => hes (List.mem_cons_of_mem e hh)
    exact ih (execStep st e) hes2 (execStep_no_abort st e he h)

/-! ## Lemmas about the instance machine -/

theorem singleton_of_mem_len_le {α : Type} {l : List α} {a : α}
    (h : a ∈ l) (hl : l.length ≤ 1) : l = [a] := by
  cases l with
  | nil => cases h
  | cons x xs =>
    cases xs with
    | nil =>
      simp only [List.mem_singleton] at h
      rw [h]
    | cons y ys => simp at hl

theorem runNext_settled (s : Sys) : (runNext s).settled = s.settled := by
  unfold runNext
  by_cases hc : s._childProcess = true <;> simp [hc]
  cases s.queue with
  | nil => simp
  | cons item rest =>
    by_cases hm : s._memoize = true <;> simp [hm]

theorem runNext_successfulList (s : Sys) :
    (runNext s).successfulList = s.successfulList := by
  unfold runNext
  by_cases hc : s._childProcess = true <;> simp [hc]
  cases s.queue with
  | nil => simp
  | cons item rest =>
    by_cases hm : s._memoize = true <;> simp [hm]

theorem runNext_memoizeField (s : Sys) : (runNext s)._memoize = s._memoize := by
  unfold runNext
  by_cases hc : s._childProcess = true <;> simp [hc]
  cases s.queue with
  | nil => simp
  | cons item rest =>
    by_cases hm : s._memoize = true <;> simp [hm]

theorem runNext_busy (s : Sys) (hc : s._childProcess = true) : runNext s = s := by
  simp [runNext, hc]

theorem runNext_emptyq (s : Sys) (hc : ¬ s._childProcess = true)
    (hq : s.queue = []) : runNext s = s := by
  simp [runNext, hc, hq]

theorem runNext_spawn (s : Sys) (item : QueueItem) (rest : List QueueItem)
    (hc : ¬ s._childProcess = true) (hq : s.queue = item :: rest)
    (hm : s._memoize = true) :
    runNext s = { s with
      queue := rest
      _childProcess := true
      spawns := s.spawns ++ [ExecKind.drained item]
      running := s.running ++ [ExecKind.drained item] } := by
  simp [runNext, hc, hq, hm]

theorem runNext_inv (s : Sys) (h : Inv s) : Inv (runNext s) := by
  obtain ⟨hm, hdr, hlen, hslot, hpair, hbound⟩ := h
  by_cases hc : s._childProcess = true
  · rw [runNext_busy s hc]
    exact ⟨hm, hdr, hlen, hslot, hpair, hbound⟩
  · have hrun : s.running = [] := by
      by_contra hne
      exact hc (hslot.mpr hne)
    cases hq : s.queue with
    | nil =>
      rw [runNext_emptyq s hc hq]
      exact ⟨hm, hdr, hlen, hslot, hpair, hbound⟩
    | cons item rest =>
      rw [runNext_spawn s item rest hc hq hm]
      have hseq : seqList { s with
          queue := rest
          _childProcess := true
          spawns := s.spawns ++ [ExecKind.drained item]
          running := s.running ++ [ExecKind.drained item] } = seqList s := by
        simp [seqList, hq, seqOf]
      refine ⟨hm, ?_, ?_, ?_, ?_, ?_⟩
      · intro k hk
        simp only [hrun, List.nil_append, List.mem_singleton] at hk
        rw [hk]
        rfl
      · simp [hrun]
      · simp [hrun]
      · rw [hseq]
        exact hpair
      · rw [hseq]
        exact hbound

theorem run_inv_some (s : Sys) (c : Nat) (t : Token) (h : Inv s) :
    Inv (run s c (some t)) := by
  obtain ⟨hm, hdr, hlen, hslot, hpair, hbound⟩ := h
  simp only [run]
  by_cases h1 : t ∈ s.abortedTokens
  · rw [if_pos h1]
    exact ⟨hm, hdr, hlen, hslot, hpair, hbound⟩
  · rw [if_neg h1]
    by_cases h2 : s._memoize = true ∧ t ∈ s.successfulList
    · rw [if_pos h2]
      exact ⟨hm, hdr, hlen, hslot, hpair, hbound⟩
    · rw [if_neg h2, if_pos hm]
      apply runNext_inv
      have hseq : seqList { s with
          queue := s.queue ++ [{ caller := c, signal := t, seq := s.nextSeq }]
          nextSeq := s.nextSeq + 1 } = seqList s ++ [s.nextSeq] := by
        simp [seqList]
      refine ⟨hm, hdr, hlen, hslot, ?_, ?_⟩
      · rw [hseq]
        refine List.pairwise_append.mpr ⟨hpair, List.pairwise_singleton _ _, ?_⟩
        intro a ha b hb
        simp only [List.mem_singleton] at hb
        rw [hb]
        exact hbound a ha
      · rw [hseq]
        intro x hx
        rcases List.mem_append.mp hx with hx | hx
        · exact Nat.lt_trans (hbound x hx) (Nat.lt_succ_self _)
        · simp only [List.mem_singleton] at hx
          rw [hx]
          exact Nat.lt_succ_self _

theorem settle_inv (s : Sys) (k : ExecKind) (oc : Outcome) (h : Inv s) :
    Inv (step s (Label.settleExec k oc)) := by
  obtain ⟨hm, hdr, hlen, hslot, hpair, hbound⟩ := h
  simp only [step]
  by_cases hk : k ∈ s.running
  · rw [if_pos hk]
    cases k with
    | direct c sig =>
      have := hdr _ hk
      simp [ExecKind.isDrained] at this
    | drained item =>
      have hsing : s.running = [ExecKind.drained item] :=
        singleton_of_mem_len_le hk hlen
      have hclean : Inv (execCleanup s (ExecKind.drained item)) := by
        refine ⟨hm, ?_, ?_, ?_, hpair, hbound⟩
        · intro j hj
          simp [execCleanup, hsing, List.erase_cons_head] at hj
        · simp [execCleanup, hsing, List.erase_cons_head]
        · simp [execCleanup, hsing, List.erase_cons_head]
      obtain ⟨gm, gdr, glen, gslot, gpair, gbound⟩ := hclean
      unfold settleDrained
      apply runNext_inv
      cases oc with
      | ok =>
        have hsub : List.Sublist
            (seqList (drainThen (execCleanup s (ExecKind.drained item)) item))
            (seqList (execCleanup s (ExecKind.drained item))) := by
          simp only [seqList, drainThen]
          exact ((List.filter_sublist _).map QueueItem.seq).append_left _
        refine ⟨gm, gdr, glen, gslot, gpair.sublist hsub, ?_⟩
        intro x hx
        exact gbound x (hsub.subset hx)
      | err ek =>
        exact ⟨gm, gdr, glen, gslot, gpair, gbound⟩
  · rw [if_neg hk]
    exact ⟨hm, hdr, hlen, hslot, hpair, hbound⟩

theorem step_inv (s : Sys) (l : Label) (hl : queueOnly l = true) (h : Inv s) :
    Inv (step s l) := by
  obtain ⟨hm, hdr, hlen, hslot, hpair, hbound⟩ := h
  cases l with
  | runCall c sig =>
    cases sig with
    | none => simp [queueOnly] at hl
    | some t => exact run_inv_some s c t ⟨hm, hdr, hlen, hslot, hpair, hbound⟩
  | settleExec k oc => exact settle_inv s k oc ⟨hm, hdr, hlen, hslot, hpair, hbound⟩
  | abortSig t => exact ⟨hm, hdr, hlen, hslot, hpair, hbound⟩
  | memoizeCall => exact ⟨rfl, hdr, hlen, hslot, hpair, hbound⟩

theorem memoInit_inv : Inv memoInit := by
  refine ⟨rfl, ?_, ?_, ?_, ?_, ?_⟩ <;> simp [memoInit, step, Sys.init, seqList]

theorem stepsFrom_inv (ls : List Label) (s : Sys) (h : Inv s)
    (hl : ∀ l ∈ ls, queueOnly l = true) : Inv (stepsFrom s ls) := by
  induction ls generalizing s with
  | nil => exact h
  | cons l ls ih =>
    exact ih (step s l) (step_inv s l (hl l (List.mem_cons_self l ls)) h)
      (fun j hj => hl j (List.mem_cons_of_mem l hj))

theorem settleDrained_ok (s : Sys) (item : QueueItem) :
    settleDrained s item Outcome.ok
      = runNext (drainThen (execCleanup s (ExecKind.drained item)) item) := rfl

theorem settleDrained_err (s : Sys) (item : QueueItem) (k : ErrKind) :
    settleDrained s item (Outcome.err k)
      = runNext (drainCatch (execCleanup s (ExecKind.drained item)) item k) := rfl

theorem runNext_nomemo (s : Sys) (item : QueueItem) (rest : List QueueItem)
    (hc : ¬ s._childProcess = true) (hq : s.queue = item :: rest)
    (hm : ¬ s._memoize = true) :
    runNext s = { s with queue := rest } := by
  simp [runNext, hc, hq, hm]

/-! ## Claim C4 -/

/-- C4: for a token already in cancelled state, `run(token)` settles the
caller immediately with AlreadyCancelled and does nothing else — no spawn,
no queue change, no cache change — and, because the aborted check precedes
the memoization-cache check, this holds even when the token is already a
member of `successfulList`. -/
theorem c4_already_cancelled_rejects (s : Sys) (caller : Nat) (t : Token)
    (h : t ∈ s.abortedTokens) :
    run s caller (some t)
      = { s with settled := s.settled ++ [(caller, Outcome.err ErrKind.alreadyAborted)] } := by
  simp [run, h]

def c4sample : Sys :=
  { Sys.init with _memoize := true, successfulList := [3], abortedTokens := [3] }

theorem c4_already_cancelled_rejects_witness :
    run c4sample 1 (some 3)
      = { c4sample with settled := [(1, Outcome.err ErrKind.alreadyAborted)] } := by
  have h := c4_already_cancelled_rejects c4sample 1 3 (by decide)
  simpa [c4sample, Sys.init] using h

/-! ## Claim C6 -/

/-- C6: with memoization on, a non-cancelled token that is a member of
`successfulList` makes `run` succeed immediately with no execution and no
other state change; and membership is by token identity — a token outside
`successfulList` never short-circuits, regardless of any derived state. -/
theorem c6_memoized_cache_hit (s : Sys) (caller : Nat) (t u : Token) :
    (s._memoize = true → t ∉ s.abortedTokens → t ∈ s.successfulList →
      run s caller (some t) = { s with settled := s.settled ++ [(caller, Outcome.ok)] })
    ∧ (u ∉ s.successfulList → u ∉ s.abortedTokens →
      (run s caller (some u)).settled = s.settled) := by
  constructor
  · intro hm ha hs
    simp [run, ha, hm, hs]
  · intro hu ha
    by_cases hm : s._memoize = true <;>
      simp [run, ha, hu, hm, runNext_settled]

def c6sample : Sys := { Sys.init with _memoize := true, successfulList := [3] }

theorem c6_memoized_cache_hit_witness :
    run c6sample 1 (some 3) = { c6sample with settled := [(1, Outcome.ok)] }
    ∧ (run c6sample 1 (some 4)).settled = [] := by
  constructor
  · have h := (c6_memoized_cache_hit c6sample 1 3 4).1 rfl (by decide) (by decide)
    simpa [c6sample, Sys.init] using h
  · have h := (c6_memoized_cache_hit c6sample 1 3 4).2 (by decide) (by decide)
    simpa [c6sample, Sys.init] using h

/-! ## Claim C5 -/

/-- C5: a token-less `run()` — and a non-memoized `run(t)` with a
non-cancelled token — executes directly: it spawns at once with no
queueing; and the spawned execution's close event settles it with success
iff the exit code is exactly 0, otherwise with NonZeroExit(code). -/
theorem c5_direct_exit_code (s : Sys) (caller : Nat) (t : Token) (b : Bool)
    (code : Int) :
    (run s caller none = { s with
      _childProcess := true
      spawns := s.spawns ++ [ExecKind.direct caller none]
      running := s.running ++ [ExecKind.direct caller none] })
    ∧ (s._memoize = false → t ∉ s.abortedTokens →
      run s caller (some t) = { s with
        _childProcess := true
        spawns := s.spawns ++ [ExecKind.direct caller (some t)]
        running := s.running ++ [ExecKind.direct caller (some t)] })
    ∧ (execStep (execInit b) (EEvent.closeEv code)).result
        = some (if code = 0 then Outcome.ok else Outcome.err (ErrKind.nonZeroExit code))
    ∧ ((execStep (execInit b) (EEvent.closeEv code)).result = some Outcome.ok ↔ code = 0) := by
  refine ⟨rfl, ?_, ?_, ?_⟩
  · intro hm ha
    simp [run, ha, hm]
  · simp [execStep, execInit, cleanup]
  · by_cases hc : code = 0 <;> simp [execStep, execInit, cleanup, hc]

theorem c5_direct_exit_code_witness :
    run Sys.init 1 (some 9) = { Sys.init with
      _childProcess := true
      spawns := [ExecKind.direct 1 (some 9)]
      running := [ExecKind.direct 1 (some 9)] } := by
  have h := (c5_direct_exit_code Sys.init 1 9 true 0).2.1 rfl (by decide)
  simpa [Sys.init] using h

/-! ## Claim C9 -/

/-- C9: the memoization flag starts false, `memoize()` sets it to true on
the receiver and returns the very same object (same object reference, id
and command — no independent copy), and once the flag is true no step of
the machine ever resets it. -/
theorem c9_memoize_flag (p : Instance) (objId id : Nat) (cmd : String)
    (s : Sys) (l : Label) :
    (Instance.new objId id cmd)._memoize = false
    ∧ p.memoize._memoize = true
    ∧ p.memoize.objId = p.objId
    ∧ p.memoize.id = p.id
    ∧ p.memoize.command = p.command
    ∧ Sys.init._memoize = false
    ∧ (step s Label.memoizeCall)._memoize = true
    ∧ (s._memoize = true → (step s l)._memoize = true) := by
  refine ⟨rfl, rfl, rfl, rfl, rfl, rfl, rfl, ?_⟩
  intro hm
  cases l with
  | runCall c sig =>
    cases sig with
    | some t =>
      show (run s c (some t))._memoize = true
      by_cases h1 : t ∈ s.abortedTokens
      · simp [run, h1, hm]
      · by_cases h2 : t ∈ s.successfulList
        · simp [run, h1, h2, hm]
        · simp [run, h1, h2, hm, runNext_memoizeField]
    | none => exact hm
  | settleExec k oc =>
    show (step s (Label.settleExec k oc))._memoize = true
    by_cases hk : k ∈ s.running
    · cases k with
      | drained item =>
        have he : step s (Label.settleExec (ExecKind.drained item) oc)
            = settleDrained s item oc := by simp [step, hk]
        rw [he]
        cases oc with
        | ok =>
          rw [settleDrained_ok, runNext_memoizeField]
          exact hm
        | err ek =>
          rw [settleDrained_err, runNext_memoizeField]
          exact hm
      | direct c sig =>
        have he : step s (Label.settleExec (ExecKind.direct c sig) oc)
            = settleDirect s c sig oc := by simp [step, hk]
        rw [he]
        exact hm
    · simp [step, hk, hm]
  | abortSig t => exact hm
  | memoizeCall => rfl

theorem c9_memoize_flag_witness :
    (step memoInit Label.memoizeCall)._memoize = true :=
  (c9_memoize_flag (Instance.new 0 1 "x") 0 1 "x" memoInit
    Label.memoizeCall).2.2.2.2.2.2.2 rfl

/-! ## Claim C3 -/

/-- C3: over any event sequence delivered to one exec call, cleanup runs at
most once and exactly when the call settles; once settled, the execution
slot is empty and every further event is a no-op (only the first terminal
event determines the outcome); and if the abort event arrives while the
call is outstanding, cleanup runs and the call settles with Aborted. -/
theorem c3_cleanup_idempotent (b : Bool) (es : List EEvent) (e : EEvent)
    (st : ExecSt) (hst : st = execEvents (execInit b) es) :
    st.cleanupRuns ≤ 1
    ∧ (st.result ≠ none ↔ st.cleanupRuns = 1)
    ∧ (st.result ≠ none → st.childInSlot = false ∧ execStep st e = st)
    ∧ (st.result = none → st.abortListenerOn = true →
        (execStep st EEvent.abortFires).result
            = some (Outcome.err ErrKind.abortedBySignal)
        ∧ (execStep st EEvent.abortFires).cleanupRuns = 1
        ∧ (execStep st EEvent.abortFires).childInSlot = false) := by
  have hinv : ExecInv st := by
    rw [hst]
    exact execInv_events es (execInit b) (execInv_init b)
  rcases hinv with ⟨h1, h2, h3, h4⟩ | ⟨h1, h2, h3, h4, h5⟩
  · refine ⟨by omega, ?_, ?_, ?_⟩
    · constructor
      · intro hr
        exact absurd h1 hr
      · intro hc
        rw [h2] at hc
        cases hc
    · intro hr
      exact absurd h1 hr
    · intro _ ha
      refine ⟨?_, ?_, ?_⟩ <;> simp [execStep, ha, cleanup, h2]
  · have hfix : execStep st e = st :=
      execStep_of_settled st e (Or.inr ⟨h1, h2, h3, h4, h5⟩) h1
    refine ⟨by omega, ⟨fun _ => h2, fun _ => h1⟩, fun _ => ⟨h5, hfix⟩, ?_⟩
    intro hr
    exact absurd hr h1

theorem c3_cleanup_idempotent_witness :
    (execEvents (execInit true) [EEvent.closeEv 0]).cleanupRuns ≤ 1
    ∧ execStep (execEvents (execInit true) [EEvent.closeEv 0]) EEvent.errorEv
        = execEvents (execInit true) [EEvent.closeEv 0] := by
  have h := c3_cleanup_idempotent true [EEvent.closeEv 0] EEvent.errorEv
    (execEvents (execInit true) [EEvent.closeEv 0]) rfl
  exact ⟨h.1, (h.2.2.1 (by decide)).2⟩

/-! ## Claim C1 -/

def c1trace : List Label :=
  [Label.runCall 1 (some 7), Label.runCall 2 (some 7),
   Label.settleExec (ExecKind.drained { caller := 1, signal := 7, seq := 0 }) Outcome.ok]

/-- C1: when a drained execution succeeds, the executed entry's token joins
`successfulList`, the entry resolves, every remaining queued entry with the
identical token resolves and is removed without executing, while entries
with a different token stay queued; and two `run(T)` calls issued before
either settles cause exactly one spawn and both settle successfully once it
succeeds. -/
theorem c1_success_broadcast :
    (∀ (s : Sys) (item : QueueItem),
      item.signal ∈ (drainThen s item).successfulList
      ∧ (item.caller, Outcome.ok) ∈ (drainThen s item).settled
      ∧ (∀ e ∈ s.queue, e.signal = item.signal →
          e ∉ (drainThen s item).queue
          ∧ (e.caller, Outcome.ok) ∈ (drainThen s item).settled)
      ∧ (∀ e ∈ s.queue, e.signal ≠ item.signal → e ∈ (drainThen s item).queue)
      ∧ (drainThen s item).spawns = s.spawns)
    ∧ (stepsFrom memoInit c1trace).spawns.length = 1
    ∧ (stepsFrom memoInit c1trace).settled = [(1, Outcome.ok), (2, Outcome.ok)]
    ∧ (stepsFrom memoInit c1trace).queue = [] := by
  refine ⟨?_, by decide, by decide, by decide⟩
  intro s item
  refine ⟨?_, ?_, ?_, ?_, rfl⟩
  · simp [drainThen]
  · simp [drainThen]
  · intro e he heq
    constructor
    · simp [drainThen, List.mem_filter, heq]
    · simp only [drainThen]
      refine List.mem_append.mpr (Or.inr ?_)
      refine List.mem_cons.mpr (Or.inr ?_)
      refine List.mem_map.mpr ⟨e, ?_, rfl⟩
      exact List.mem_filter.mpr ⟨he, by simp [heq]⟩
  · intro e he hne
    simp only [drainThen]
    exact List.mem_filter.mpr ⟨he, by simp [hne]⟩

def c1sample : Sys := { Sys.init with
  _memoize := true
  queue := [{ caller := 2, signal := 5, seq := 0 }, { caller := 3, signal := 6, seq := 1 }] }

theorem c1_success_broadcast_witness :
    ({ caller := 2, signal := 5, seq := 0 } : QueueItem)
        ∉ (drainThen c1sample { caller := 9, signal := 5, seq := 4 }).queue
    ∧ ((2, Outcome.ok)
        ∈ (drainThen c1sample { caller := 9, signal := 5, seq := 4 }).settled) :=
  (c1_success_broadcast.1 c1sample { caller := 9, signal := 5, seq := 4 }).2.2.1
    { caller := 2, signal := 5, seq := 0 } (by decide) rfl

/-! ## Claim C7 -/

def c7trace : List Label :=
  [Label.runCall 1 (some 5),
   Label.settleExec (ExecKind.drained { caller := 1, signal := 5, seq := 0 })
     (Outcome.err ErrKind.spawnError),
   Label.runCall 2 (some 5)]

/-- C7: the failure handler of a drained execution settles only the entry
that was executed; the queue and `successfulList` are untouched, and the
whole settle step never caches the token and settles no other caller — so
a later `run` with the same token spawns again (the concrete trace shows
two spawns for the same token after a failure). -/
theorem c7_failure_not_cached (s : Sys) (item : QueueItem) (k : ErrKind) :
    ((drainCatch s item k).queue = s.queue
      ∧ (drainCatch s item k).successfulList = s.successfulList
      ∧ (drainCatch s item k).settled = s.settled ++ [(item.caller, Outcome.err k)])
    ∧ (settleDrained s item (Outcome.err k)).successfulList = s.successfulList
    ∧ (∀ c oc, (c, oc) ∈ (settleDrained s item (Outcome.err k)).settled →
        (c, oc) ∈ s.settled ∨ (c = item.caller ∧ oc = Outcome.err k))
    ∧ (stepsFrom memoInit c7trace).spawns
        = [ExecKind.drained { caller := 1, signal := 5, seq := 0 },
           ExecKind.drained { caller := 2, signal := 5, seq := 1 }]
    ∧ (stepsFrom memoInit c7trace).successfulList = [] := by
  refine ⟨⟨rfl, rfl, rfl⟩, ?_, ?_, by decide, by decide⟩
  · rw [settleDrained_err, runNext_successfulList]
    rfl
  · intro c oc hmem
    rw [settleDrained_err, runNext_settled] at hmem
    simp only [drainCatch, execCleanup] at hmem
    rcases List.mem_append.mp hmem with h | h
    · exact Or.inl h
    · simp only [List.mem_singleton, Prod.mk.injEq] at h
      exact Or.inr h

theorem c7_failure_not_cached_witness :
    ((3, Outcome.ok)
        ∈ (settleDrained { Sys.init with settled := [(3, Outcome.ok)] }
            { caller := 1, signal := 5, seq := 0 }
            (Outcome.err ErrKind.spawnError)).settled) →
    ((3, Outcome.ok) ∈ ([(3, Outcome.ok)] : List (Nat × Outcome))
      ∨ (3 = 1 ∧ Outcome.ok = Outcome.err ErrKind.spawnError)) := by
  intro hmem
  have h := (c7_failure_not_cached { Sys.init with settled := [(3, Outcome.ok)] }
    { caller := 1, signal := 5, seq := 0 } ErrKind.spawnError).2.2.1 3 Outcome.ok hmem
  exact h

/-! ## Claim C2 -/

/-- C2: along any trace of memoized token-bearing requests, at most one
execution is ever in flight and it was launched by the drain; spawns follow
arrival order strictly — every spawned entry arrived before every entry
still queued, and the spawn history is strictly increasing in arrival
order; and the drain can spawn only while nothing is running, i.e. only
after the previous execution's cleanup emptied the slot. -/
theorem c2_fifo_serialized (ls : List Label) (s : Sys)
    (hls : ∀ l ∈ ls, queueOnly l = true) (hs : s = stepsFrom memoInit ls) :
    s.running.length ≤ 1
    ∧ (∀ k ∈ s.running, k.isDrained = true)
    ∧ (∀ k ∈ s.spawns, ∀ e ∈ s.queue, seqOf k < e.seq)
    ∧ (s.spawns.map seqOf).Pairwise (· < ·)
    ∧ ((runNext s).spawns ≠ s.spawns → s.running = []) := by
  have hinv : Inv s := by
    rw [hs]
    exact stepsFrom_inv ls memoInit memoInit_inv hls
  obtain ⟨hm, hdr, hlen, hslot, hpair, hbound⟩ := hinv
  simp only [seqList] at hpair
  have hsplit := List.pairwise_append.mp hpair
  refine ⟨hlen, hdr, ?_, hsplit.1, ?_⟩
  · intro k hk e he
    exact hsplit.2.2 (seqOf k) (List.mem_map_of_mem seqOf hk)
      e.seq (List.mem_map_of_mem QueueItem.seq he)
  · intro hne
    by_cases hc : s._childProcess = true
    · rw [runNext_busy s hc] at hne
      exact absurd rfl hne
    · by_cases hr : s.running = []
      · exact hr
      · exact absurd (hslot.mpr hr) hc

theorem c2_fifo_serialized_witness :
    (stepsFrom memoInit
      [Label.runCall 1 (some 7), Label.runCall 2 (some 8)]).running.length ≤ 1 :=
  (c2_fifo_serialized [Label.runCall 1 (some 7), Label.runCall 2 (some 8)]
    (stepsFrom memoInit [Label.runCall 1 (some 7), Label.runCall 2 (some 8)])
    (by decide) rfl).1

/-! ## Claim C8 -/

def c8trace : List Label :=
  [Label.memoizeCall, Label.runCall 1 none, Label.runCall 2 (some 5),
   Label.settleExec (ExecKind.direct 1 none) Outcome.ok]

/-- C8 counterexample: on a memoized instance a token-less `run()` launches
a direct execution; a token-bearing `run` then enqueues, and the drain backs
off because the slot is occupied.  When that direct execution settles,
nothing re-invokes the drain: the queued entry remains queued, unspawned and
unsettled, although nothing is in flight any more. -/
theorem c8_direct_settle_no_drain_cex :
    (stepsFrom Sys.init c8trace).settled = [(1, Outcome.ok)]
    ∧ (stepsFrom Sys.init c8trace).queue = [{ caller := 2, signal := 5, seq := 0 }]
    ∧ (stepsFrom Sys.init c8trace).running = []
    ∧ (stepsFrom Sys.init c8trace)._childProcess = false
    ∧ (stepsFrom Sys.init c8trace).spawns = [ExecKind.direct 1 none] := by
  decide

/-- C8 (amended): the drain procedure is invoked after every enqueue (the
memoized token-bearing `run` path ends in `runNext`) and after every
drain-launched execution settles (the `.finally` handler), and when invoked
with a free slot and a nonempty queue it spawns the head entry; but a
directly launched execution does not re-invoke the drain on settlement —
its settlement leaves both the queue and the spawn history unchanged. -/
theorem c8_drain_reinvocation (s : Sys) (caller : Nat) (t : Token)
    (item : QueueItem) (rest : List QueueItem) (k : ErrKind)
    (sig : Option Token) (oc : Outcome) :
    (t ∉ s.abortedTokens → ¬ (s._memoize = true ∧ t ∈ s.successfulList) →
      s._memoize = true →
      run s caller (some t) = runNext { s with
        queue := s.queue ++ [{ caller := caller, signal := t, seq := s.nextSeq }]
        nextSeq := s.nextSeq + 1 })
    ∧ settleDrained s item Outcome.ok
        = runNext (drainThen (execCleanup s (ExecKind.drained item)) item)
    ∧ settleDrained s item (Outcome.err k)
        = runNext (drainCatch (execCleanup s (ExecKind.drained item)) item k)
    ∧ (s._childProcess = false → s.queue = item :: rest → s._memoize = true →
        (runNext s).spawns = s.spawns ++ [ExecKind.drained item])
    ∧ (settleDirect s caller sig oc).queue = s.queue
    ∧ (settleDirect s caller sig oc).spawns = s.spawns := by
  refine ⟨?_, settleDrained_ok s item, settleDrained_err s item k, ?_, rfl, rfl⟩
  · intro h1 h2 hm
    have hns : t ∉ s.successfulList := fun hmem => h2 ⟨hm, hmem⟩
    simp [run, h1, hns, hm]
  · intro hc hq hm
    rw [runNext_spawn s item rest (by simp [hc]) hq hm]

theorem c8_drain_reinvocation_witness :
    run memoInit 1 (some 7) = runNext { memoInit with
      queue := [{ caller := 1, signal := 7, seq := 0 }]
      nextSeq := 1 } := by
  have h := (c8_drain_reinvocation memoInit 1 7 { caller := 1, signal := 7, seq := 0 }
    [] ErrKind.spawnError none Outcome.ok).1 (by decide) (by decide) rfl
  simpa [memoInit, step, Sys.init] using h

/-! ## Claim C10 -/

def c10trace : List Label :=
  [Label.runCall 1 (some 4), Label.runCall 2 (some 5), Label.abortSig 5,
   Label.settleExec (ExecKind.drained { caller := 1, signal := 4, seq := 0 }) Outcome.ok]

/-- C10: the drain performs no aborted-state check on the dequeued entry —
`runNext` is invariant under any change of the tokens' cancelled state —
and an execution whose token fired before the listener was registered never
receives the abort event, so it settles by the process outcome; concretely,
an entry whose token fires while it waits in the queue is still spawned,
and a close event with exit code 0 then settles it successfully, not with
Aborted. -/
theorem c10_queued_abort_still_runs (s : Sys) (A : List Token) (b : Bool)
    (es : List EEvent) :
    ((runNext { s with abortedTokens := A }).queue = (runNext s).queue
      ∧ (runNext { s with abortedTokens := A }).spawns = (runNext s).spawns
      ∧ (runNext { s with abortedTokens := A })._childProcess
          = (runNext s)._childProcess)
    ∧ (EEvent.abortFires ∉ es →
        (execEvents (execInit b) es).result ≠ some (Outcome.err ErrKind.abortedBySignal))
    ∧ (stepsFrom memoInit c10trace).spawns
        = [ExecKind.drained { caller := 1, signal := 4, seq := 0 },
           ExecKind.drained { caller := 2, signal := 5, seq := 1 }]
    ∧ (5 : Token) ∈ (stepsFrom memoInit c10trace).abortedTokens
    ∧ (execEvents (execInit true) [EEvent.closeEv 0]).result = some Outcome.ok := by
  refine ⟨?_, ?_, by decide, by decide, by decide⟩
  · by_cases hc : s._childProcess = true
    · rw [runNext_busy s hc, runNext_busy { s with abortedTokens := A } hc]
      exact ⟨rfl, rfl, rfl⟩
    · cases hq : s.queue with
      | nil =>
        rw [runNext_emptyq s hc hq,
          runNext_emptyq { s with queue := [], abortedTokens := A } hc rfl]
        exact ⟨hq.symm, rfl, rfl⟩
      | cons item rest =>
        by_cases hm : s._memoize = true
        · rw [runNext_spawn s item rest hc hq hm,
            runNext_spawn { s with queue := item :: rest, abortedTokens := A }
              item rest hc rfl hm]
          exact ⟨rfl, rfl, rfl⟩
        · rw [runNext_nomemo s item rest hc hq hm,
            runNext_nomemo { s with queue := item :: rest, abortedTokens := A }
              item rest hc rfl hm]
          exact ⟨rfl, rfl, rfl⟩
  · intro hes
    exact execEvents_no_abort es (execInit b) hes (by simp [execInit])

theorem c10_queued_abort_still_runs_witness :
    (execEvents (execInit true) [EEvent.closeEv 2]).result
      ≠ some (Outcome.err ErrKind.abortedBySignal) :=
  (c10_queued_abort_still_runs Sys.init [] true [EEvent.closeEv 2]).2.1 (by decide)

end PredictedProc
